import Mathlib

/-!
Verification of the robot-fleet coordination core: a shallow embedding of
the three concurrency primitives (zone access controller, FIFO task queue,
health monitor) from `src/zones.rs`, `src/task_queue.rs` and
`src/health_monitor.rs`, with each shared structure modelled as explicit
state passed through the operations.  Machine integers (`u64` ids,
`Instant`/`Duration` time values) are modelled as `Nat`; `HashMap` is an
association list whose insert overwrites the key; `HashSet` is a list with
membership-checked insertion.
-/

namespace RobotFleet

/-- Unique identifier for a task (`types.rs`: `pub type TaskId = u64`). -/
abbrev TaskId := Nat

/-- Unique identifier for a robot thread (`types.rs`: `pub type RobotId = u64`). -/
abbrev RobotId := Nat

/-- Unique identifier for a physical zone (`types.rs`: `pub type ZoneId = u64`). -/
abbrev ZoneId := Nat

namespace ZoneAccess

/-- The `occupied: HashMap<ZoneId, RobotId>` field of `ZoneAccess`,
modelled as an association list. -/
abbrev ZoneMap := List (ZoneId × RobotId)

/-- Lookup in the ownership map (`HashMap::get` / `contains_key`). -/
def lookupZone (m : ZoneMap) (zone : ZoneId) : Option RobotId :=
  match m with
  | [] => none
  | (z, r) :: rest => if z = zone then some r else lookupZone rest zone

/-- Removal from the ownership map (`HashMap::remove`). -/
def eraseZone (m : ZoneMap) (zone : ZoneId) : ZoneMap :=
  m.filter (fun p => p.1 != zone)

/-- One successful pass of `ZoneAccess::acquire`'s loop body
(`zones.rs` lines 24-34): if the zone has no owner the caller is recorded
as owner; otherwise the thread keeps waiting, modelled as `none`. -/
def acquire (m : ZoneMap) (zone : ZoneId) (robot : RobotId) : Option ZoneMap :=
  if (lookupZone m zone).isSome then none else some ((zone, robot) :: m)

/-- `ZoneAccess::release` (`zones.rs` lines 37-68): clears ownership and
returns `true` only when the caller owns the zone; otherwise returns
`false` and leaves the map unchanged (the `debug_assert!` is a no-op in
release builds, so the production semantics is the `false` return). -/
def release (m : ZoneMap) (zone : ZoneId) (robot : RobotId) : Bool × ZoneMap :=
  match lookupZone m zone with
  | some owner => if owner = robot then (true, eraseZone m zone) else (false, m)
  | none => (false, m)

/-- One atomic transition of the zone controller: a successful acquire or
any release call. -/
inductive Step : ZoneMap → ZoneMap → Prop
| acquire (m : ZoneMap) (zone : ZoneId) (robot : RobotId) (m' : ZoneMap)
    (h : acquire m zone robot = some m') : Step m m'
| release (m : ZoneMap) (zone : ZoneId) (robot : RobotId) :
    Step m (release m zone robot).2

/-- Ownership maps reachable from the empty map built by `ZoneAccess::new`. -/
inductive Reachable : ZoneMap → Prop
| init : Reachable []
| step {m m' : ZoneMap} : Reachable m → Step m m' → Reachable m'

/-- Well-formedness of the association list modelling the `HashMap`:
no key occurs twice. -/
def KeysNodup (m : ZoneMap) : Prop := (m.map Prod.fst).Nodup

theorem lookupZone_eq_none_iff (m : ZoneMap) (zone : ZoneId) :
    lookupZone m zone = none ↔ zone ∉ m.map Prod.fst := by
  induction m with
  | nil => simp [lookupZone]
  | cons p rest ih =>
    obtain ⟨z, r⟩ := p
    simp only [lookupZone, List.map_cons, List.mem_cons]
    by_cases hz : z = zone
    · simp [hz]
    · simp [hz, ih, Ne.symm hz]

theorem keysNodup_eraseZone (m : ZoneMap) (zone : ZoneId) (h : KeysNodup m) :
    KeysNodup (eraseZone m zone) :=
  List.Nodup.sublist ((List.filter_sublist m).map Prod.fst) h

theorem keysNodup_step {m m' : ZoneMap} (hs : Step m m') (h : KeysNodup m) :
    KeysNodup m' := by
  cases hs with
  | acquire zone robot m' hacq =>
    unfold acquire at hacq
    by_cases hocc : (lookupZone m zone).isSome
    · rw [if_pos hocc] at hacq
      cases hacq
    · rw [if_neg hocc] at hacq
      obtain rfl := Option.some.inj hacq
      unfold KeysNodup
      simp only [List.map_cons, List.nodup_cons]
      refine ⟨?_, h⟩
      exact (lookupZone_eq_none_iff m zone).mp (Option.not_isSome_iff_eq_none.mp hocc)
  | release zone robot =>
    unfold release
    cases hl : lookupZone m zone with
    | none => exact h
    | some owner =>
      show KeysNodup (if owner = robot then (true, eraseZone m zone) else (false, m)).2
      by_cases hr : owner = robot
      · rw [if_pos hr]
        exact keysNodup_eraseZone m zone h
      · rw [if_neg hr]
        exact h

theorem keysNodup_reachable {m : ZoneMap} (h : Reachable m) : KeysNodup m := by
  induction h with
  | init => exact List.nodup_nil
  | step _ hs ih => exact keysNodup_step hs ih

theorem mem_of_keysNodup {m : ZoneMap} (h : KeysNodup m) {z : ZoneId}
    {r₁ r₂ : RobotId} (h₁ : (z, r₁) ∈ m) (h₂ : (z, r₂) ∈ m) : r₁ = r₂ := by
  induction m with
  | nil => cases h₁
  | cons p rest ih =>
    unfold KeysNodup at h
    simp only [List.map_cons, List.nodup_cons] at h
    rcases List.mem_cons.mp h₁ with hc₁ | hc₁
    · rcases List.mem_cons.mp h₂ with hc₂ | hc₂
      · rw [← hc₂] at hc₁
        exact congrArg Prod.snd hc₁
      · exfalso
        cases hc₁
        apply h.1
        show z ∈ List.map Prod.fst rest
        exact List.mem_map_of_mem Prod.fst hc₂
    · rcases List.mem_cons.mp h₂ with hc₂ | hc₂
      · exfalso
        cases hc₂
        apply h.1
        show z ∈ List.map Prod.fst rest
        exact List.mem_map_of_mem Prod.fst hc₁
      · exact ih h.2 hc₁ hc₂

/-- C1. Zone exclusivity invariant: in every reachable ownership state each
zone has at most one holder, and a successful acquire happens only from a
state where the zone is free and records the caller as the owner. -/
theorem zone_exclusivity (m : ZoneMap) (h : Reachable m) :
    (∀ z r₁ r₂, (z, r₁) ∈ m → (z, r₂) ∈ m → r₁ = r₂) ∧
    (∀ m' z r, acquire m z r = some m' →
      lookupZone m z = none ∧ lookupZone m' z = some r) := by
  constructor
  · intro z r₁ r₂ h₁ h₂
    exact mem_of_keysNodup (keysNodup_reachable h) h₁ h₂
  · intro m' z r hacq
    unfold acquire at hacq
    by_cases hocc : (lookupZone m z).isSome
    · rw [if_pos hocc] at hacq
      cases hacq
    · rw [if_neg hocc] at hacq
      obtain rfl := Option.some.inj hacq
      refine ⟨Option.not_isSome_iff_eq_none.mp hocc, ?_⟩
      simp [lookupZone]

/-- Witness for C1 at the concrete reachable state where robot 2 holds
zone 1. -/
theorem zone_exclusivity_witness :
    Reachable [(1, 2)] ∧ (2 : RobotId) = 2 := by
  have hreach : Reachable [(1, 2)] :=
    Reachable.step Reachable.init (Step.acquire [] 1 2 [(1, 2)] rfl)
  exact ⟨hreach, (zone_exclusivity [(1, 2)] hreach).1 1 2 2 (by decide) (by decide)⟩

/-- C2. A release by a caller that is not the current owner (the zone is
unowned, or owned by a different robot) returns `false` and leaves the
ownership map unchanged; in particular the recorded owner keeps the zone. -/
theorem nonowner_release_rejected (m : ZoneMap) (zone : ZoneId) (a : RobotId)
    (h : lookupZone m zone = none ∨ ∃ b, lookupZone m zone = some b ∧ b ≠ a) :
    release m zone a = (false, m) ∧
    (∀ b, lookupZone m zone = some b → lookupZone (release m zone a).2 zone = some b) := by
  have hrel : release m zone a = (false, m) := by
    unfold release
    rcases h with h | ⟨b, hb, hne⟩
    · simp [h]
    · simp [hb, hne]
  refine ⟨hrel, fun b hb => ?_⟩
  rw [hrel]
  exact hb

/-- Witness for C2: robot 3 tries to release zone 1 held by robot 2. -/
theorem nonowner_release_witness :
    release [(1, 2)] 1 3 = (false, [(1, 2)]) ∧
    (∀ b, lookupZone [(1, 2)] 1 = some b →
      lookupZone (release [(1, 2)] 1 3).2 1 = some b) :=
  nonowner_release_rejected [(1, 2)] 1 3 (Or.inr ⟨2, by decide, by decide⟩)

end ZoneAccess

/-- Unit of work assigned to robots (`types.rs`: `struct Task`). -/
structure Task where
  id : TaskId
  description : String
deriving DecidableEq, Repr

namespace TaskQueue

/-- The state guarded by the queue's mutex (`task_queue.rs`:
`struct TaskQueueState { queue: VecDeque<Task>, closed: bool }`). -/
structure TaskQueueState where
  queue : List Task
  closed : Bool
deriving DecidableEq, Repr

/-- `TaskQueue::new` (`task_queue.rs` lines 21-29): empty and open. -/
def new : TaskQueueState := { queue := [], closed := false }

/-- `TaskQueue::push` (`task_queue.rs` lines 32-40): returns the task back
as an error when the queue is closed, otherwise appends at the tail. -/
def push (s : TaskQueueState) (task : Task) : Except Task Unit × TaskQueueState :=
  if s.closed then (Except.error task, s)
  else (Except.ok (), { s with queue := s.queue ++ [task] })

/-- `TaskQueue::try_pop` (`task_queue.rs` lines 43-46): `pop_front`
without blocking. -/
def try_pop (s : TaskQueueState) : Option Task × TaskQueueState :=
  match s.queue with
  | [] => (none, s)
  | task :: rest => (some task, { s with queue := rest })

/-- `TaskQueue::pop_blocking_or_closed` (`task_queue.rs` lines 55-67):
pops the head if present, returns `none` payload when the queue is empty
and closed, and otherwise blocks on the condition variable, modelled as
the outer `none`. -/
def pop_blocking_or_closed (s : TaskQueueState) :
    Option (Option Task × TaskQueueState) :=
  match s.queue with
  | task :: rest => some (some task, { s with queue := rest })
  | [] => if s.closed then some (none, s) else none

/-- `TaskQueue::close` (`task_queue.rs` lines 71-75): sets the closed flag
(waking consumers has no effect on the guarded state). -/
def close (s : TaskQueueState) : TaskQueueState := { s with closed := true }

/-- `TaskQueue::len` (`task_queue.rs` lines 78-81). -/
def len (s : TaskQueueState) : Nat := s.queue.length

/-- Repeated `try_pop` with enough fuel, collecting the popped tasks in
order; used to express the FIFO delivery order. -/
def drain (fuel : Nat) (s : TaskQueueState) : List Task :=
  match fuel with
  | 0 => []
  | fuel + 1 =>
    match try_pop s with
    | (some task, s') => task :: drain fuel s'
    | (none, _) => []

theorem drain_len_eq_queue (s : TaskQueueState) : drain (len s) s = s.queue := by
  obtain ⟨q, c⟩ := s
  induction q with
  | nil => rfl
  | cons task rest ih =>
    simpa [drain, len, try_pop] using ih

/-- C3. Enqueue on a closed queue fails atomically: when `closed` is set,
`push` hands the task back as an error and leaves the state (in
particular the queue contents) unchanged; when the queue is open, `push`
succeeds and appends the task at the tail. -/
theorem push_closed_semantics (s : TaskQueueState) (t : Task) :
    (s.closed = true → push s t = (Except.error t, s)) ∧
    (s.closed = false →
      push s t = (Except.ok (), { s with queue := s.queue ++ [t] })) := by
  constructor
  · intro h
    simp [push, h]
  · intro h
    simp [push, h]

/-- Witness for C3 on a concrete closed queue and a concrete open queue. -/
theorem push_closed_semantics_witness :
    push ⟨[], true⟩ ⟨1, "late"⟩ = (Except.error ⟨1, "late"⟩, ⟨[], true⟩) ∧
    push ⟨[], false⟩ ⟨2, "ok"⟩ = (Except.ok (), ⟨[⟨2, "ok"⟩], false⟩) :=
  ⟨(push_closed_semantics ⟨[], true⟩ ⟨1, "late"⟩).1 rfl,
   (push_closed_semantics ⟨[], false⟩ ⟨2, "ok"⟩).2 rfl⟩

/-- C4. Dequeue semantics and FIFO order: `try_pop` removes and returns
the head when present (closed or not) and returns `none` on an empty
queue; `pop_blocking_or_closed` returns the head whenever one is present,
returns a `none` payload exactly when the queue is empty and closed, and
blocks when the queue is empty and open; draining the queue yields the
items in insertion (FIFO) order. -/
theorem dequeue_fifo_semantics (s : TaskQueueState) :
    (try_pop s).1 = s.queue.head? ∧
    (try_pop s).2 = { s with queue := s.queue.tail } ∧
    (∀ t rest, s.queue = t :: rest →
      pop_blocking_or_closed s = some (some t, { s with queue := rest })) ∧
    (s.queue = [] →
      pop_blocking_or_closed s = if s.closed then some (none, s) else none) ∧
    drain (len s) s = s.queue := by
  refine ⟨?_, ?_, ?_, ?_, drain_len_eq_queue s⟩
  · obtain ⟨q, c⟩ := s
    cases q with
    | nil => simp [try_pop]
    | cons t rest => simp [try_pop]
  · obtain ⟨q, c⟩ := s
    cases q with
    | nil => simp [try_pop]
    | cons t rest => simp [try_pop]
  · intro t rest h
    obtain ⟨q, c⟩ := s
    simp only at h
    simp [pop_blocking_or_closed, h]
  · intro h
    obtain ⟨q, c⟩ := s
    simp only at h
    simp [pop_blocking_or_closed, h]

/-- Witness for C4 on a concrete two-element open queue. -/
theorem dequeue_fifo_semantics_witness :
    pop_blocking_or_closed ⟨[⟨1, "a"⟩, ⟨2, "b"⟩], false⟩ =
      some (some ⟨1, "a"⟩, ⟨[⟨2, "b"⟩], false⟩) ∧
    pop_blocking_or_closed ⟨[], true⟩ = some (none, ⟨[], true⟩) ∧
    pop_blocking_or_closed ⟨[], false⟩ = none :=
  ⟨(dequeue_fifo_semantics ⟨[⟨1, "a"⟩, ⟨2, "b"⟩], false⟩).2.2.1
      ⟨1, "a"⟩ [⟨2, "b"⟩] rfl,
   (dequeue_fifo_semantics ⟨[], true⟩).2.2.2.1 rfl,
   (dequeue_fifo_semantics ⟨[], false⟩).2.2.2.1 rfl⟩

/-- C5. Closure is monotone and `close` is idempotent: once the closed
flag is set, every state-returning operation (`push`, `try_pop`,
`pop_blocking_or_closed`, `close`) leaves it set (`len` does not touch the
state at all), and closing twice yields the same state as closing once. -/
theorem closed_monotone_close_idempotent (s : TaskQueueState) (t : Task) :
    (s.closed = true →
      (push s t).2.closed = true ∧
      (try_pop s).2.closed = true ∧
      (∀ r s', pop_blocking_or_closed s = some (r, s') → s'.closed = true) ∧
      (close s).closed = true) ∧
    close (close s) = close s := by
  refine ⟨fun h => ⟨?_, ?_, ?_, rfl⟩, rfl⟩
  · simp [push, h]
  · cases hq : s.queue with
    | nil => simp [try_pop, hq, h]
    | cons a rest => simp [try_pop, hq, h]
  · intro r s' hpop
    cases hq : s.queue with
    | nil =>
      rw [pop_blocking_or_closed, hq, h] at hpop
      simp only [if_true] at hpop
      obtain ⟨-, rfl⟩ := Prod.mk.inj (Option.some.inj hpop)
      exact h
    | cons a rest =>
      rw [pop_blocking_or_closed, hq] at hpop
      obtain ⟨-, rfl⟩ := Prod.mk.inj (Option.some.inj hpop)
      exact h

/-- Witness for C5 on a concrete closed queue holding one task. -/
theorem closed_monotone_witness :
    (push ⟨[⟨1, "a"⟩], true⟩ ⟨2, "b"⟩).2.closed = true ∧
    (try_pop ⟨[⟨1, "a"⟩], true⟩).2.closed = true ∧
    close (close ⟨[⟨1, "a"⟩], true⟩) = close ⟨[⟨1, "a"⟩], true⟩ := by
  have h := closed_monotone_close_idempotent ⟨[⟨1, "a"⟩], true⟩ ⟨2, "b"⟩
  exact ⟨(h.1 rfl).1, (h.1 rfl).2.1, h.2⟩

end TaskQueue

namespace HealthMonitor

/-- Monotone clock reading (`std::time::Instant`), modelled as `Nat`. -/
abbrev Timestamp := Nat

/-- Elapsed-time value (`std::time::Duration`), modelled as `Nat`; the
subtraction `now.duration_since(last)` saturates at zero, matching `Nat`
truncated subtraction. -/
abbrev Dur := Nat

/-- The state guarded by the monitor's mutex (`health_monitor.rs`:
`struct HealthState { last_seen: HashMap<RobotId, Instant>,
offline: HashSet<RobotId> }`). -/
structure HealthState where
  last_seen : List (RobotId × Timestamp)
  offline : List RobotId
deriving DecidableEq, Repr

/-- Lookup in the `last_seen` map (`HashMap::get` semantics on the
association list). -/
def lookupSeen (l : List (RobotId × Timestamp)) (robot : RobotId) :
    Option Timestamp :=
  match l with
  | [] => none
  | (r, t) :: rest => if r = robot then some t else lookupSeen rest robot

/-- Overwriting insert into the `last_seen` map (`HashMap::insert`). -/
def insertSeen (l : List (RobotId × Timestamp)) (robot : RobotId)
    (t : Timestamp) : List (RobotId × Timestamp) :=
  (robot, t) :: l.filter (fun p => p.1 != robot)

/-- Deduplicating insert into the `offline` set (`HashSet::insert`). -/
def insertOffline (off : List RobotId) (robot : RobotId) : List RobotId :=
  if robot ∈ off then off else robot :: off

/-- Removal from the `offline` set (`HashSet::remove`). -/
def removeOffline (off : List RobotId) (robot : RobotId) : List RobotId :=
  off.filter (fun r => r != robot)

/-- `HealthMonitor::overdue_robots` (`health_monitor.rs` lines 20-36):
robots whose elapsed time since last-seen strictly exceeds the timeout. -/
def overdue_robots (state : HealthState) (now : Timestamp) (timeout : Dur) :
    List RobotId :=
  state.last_seen.filterMap
    (fun p => if now - p.2 > timeout then some p.1 else none)

/-- `HealthMonitor::register_robot` (`health_monitor.rs` lines 49-52):
`entry(robot).or_insert_with(Instant::now)` inserts only when absent. -/
def register_robot (s : HealthState) (robot : RobotId) (now : Timestamp) :
    HealthState :=
  if (lookupSeen s.last_seen robot).isSome then s
  else { s with last_seen := (robot, now) :: s.last_seen }

/-- `HealthMonitor::heartbeat` (`health_monitor.rs` lines 55-59):
overwrites last-seen with the current time and removes any offline mark. -/
def heartbeat (s : HealthState) (robot : RobotId) (now : Timestamp) :
    HealthState :=
  { last_seen := insertSeen s.last_seen robot now,
    offline := removeOffline s.offline robot }

/-- `HealthMonitor::detect_offline` (`health_monitor.rs` lines 62-71):
collects the overdue robots, adds each to the offline set, and returns a
clone of the resulting set together with the updated state. -/
def detect_offline (s : HealthState) (now : Timestamp) (timeout : Dur) :
    List RobotId × HealthState :=
  let overdue := overdue_robots s now timeout
  let offline' := overdue.foldl insertOffline s.offline
  (offline', { s with offline := offline' })

/-- `HealthMonitor::detect_offline_any` (`health_monitor.rs` lines 74-82):
same overdue computation, returning only whether the offline set is
non-empty. -/
def detect_offline_any (s : HealthState) (now : Timestamp) (timeout : Dur) :
    Bool × HealthState :=
  let overdue := overdue_robots s now timeout
  let offline' := overdue.foldl insertOffline s.offline
  (!offline'.isEmpty, { s with offline := offline' })

theorem mem_foldl_insertOffline (l off : List RobotId) (r : RobotId) :
    r ∈ l.foldl insertOffline off ↔ r ∈ off ∨ r ∈ l := by
  induction l generalizing off with
  | nil => simp
  | cons a rest ih =>
    simp only [List.foldl_cons, ih, List.mem_cons]
    unfold insertOffline
    by_cases ha : a ∈ off
    · rw [if_pos ha]
      constructor
      · rintro (h | h)
        · exact Or.inl h
        · exact Or.inr (Or.inr h)
      · rintro (h | h | h)
        · exact Or.inl h
        · exact Or.inl (h ▸ ha)
        · exact Or.inr h
    · rw [if_neg ha]
      simp only [List.mem_cons]
      tauto

theorem mem_overdue_iff (s : HealthState) (now timeout r : Nat) :
    r ∈ overdue_robots s now timeout ↔
      ∃ t, (r, t) ∈ s.last_seen ∧ timeout < now - t := by
  unfold overdue_robots
  rw [List.mem_filterMap]
  constructor
  · rintro ⟨⟨a, t⟩, hmem, hif⟩
    by_cases hc : now - t > timeout
    · rw [if_pos hc] at hif
      exact ⟨t, Option.some.inj hif ▸ hmem, hc⟩
    · rw [if_neg hc] at hif
      cases hif
  · rintro ⟨t, hmem, hc⟩
    exact ⟨(r, t), hmem, by rw [if_pos hc]⟩

theorem lookupSeen_mem {l : List (RobotId × Timestamp)} {r t : Nat}
    (h : lookupSeen l r = some t) : (r, t) ∈ l := by
  induction l with
  | nil => cases h
  | cons p rest ih =>
    obtain ⟨a, u⟩ := p
    unfold lookupSeen at h
    by_cases ha : a = r
    · rw [if_pos ha] at h
      exact List.mem_cons.mpr (Or.inl (by rw [ha, Option.some.inj h]))
    · rw [if_neg ha] at h
      exact List.mem_cons.mpr (Or.inr (ih h))

theorem mem_lookupSeen_of_nodup {l : List (RobotId × Timestamp)} {r t : Nat}
    (hnodup : (l.map Prod.fst).Nodup) (h : (r, t) ∈ l) :
    lookupSeen l r = some t := by
  induction l with
  | nil => cases h
  | cons p rest ih =>
    simp only [List.map_cons, List.nodup_cons] at hnodup
    unfold lookupSeen
    rcases List.mem_cons.mp h with hc | hc
    · rw [← hc]
      simp
    · obtain ⟨a, u⟩ := p
      by_cases ha : a = r
      · exfalso
        apply hnodup.1
        rw [ha]
        show r ∈ List.map Prod.fst rest
        exact List.mem_map_of_mem Prod.fst hc
      · rw [if_neg ha]
        exact ih hnodup.2 hc

/-- C6. Offline evaluation is correct and accumulative: for a tracked
worker with last-seen timestamp `now - D` (elapsed `D`), the set returned
by `detect_offline` contains the worker iff `D > timeout` (strict) or it
was already offline; every overdue worker is added, no offline entry is
ever removed, and the returned set is exactly the updated offline set. -/
theorem evaluate_offline_correct (s : HealthState) (w : RobotId)
    (now D timeout : Nat)
    (hnodup : (s.last_seen.map Prod.fst).Nodup)
    (hseen : lookupSeen s.last_seen w = some (now - D))
    (hD : D ≤ now) :
    (w ∈ (detect_offline s now timeout).1 ↔ timeout < D ∨ w ∈ s.offline) ∧
    (∀ r, r ∈ overdue_robots s now timeout →
      r ∈ (detect_offline s now timeout).1) ∧
    (∀ r, r ∈ s.offline → r ∈ (detect_offline s now timeout).1) ∧
    (detect_offline s now timeout).2.offline = (detect_offline s now timeout).1 := by
  have hfold : ∀ r, r ∈ (detect_offline s now timeout).1 ↔
      r ∈ s.offline ∨ r ∈ overdue_robots s now timeout := by
    intro r
    exact mem_foldl_insertOffline (overdue_robots s now timeout) s.offline r
  refine ⟨?_, ?_, ?_, rfl⟩
  · rw [hfold w, mem_overdue_iff]
    constructor
    · rintro (hoff | ⟨t, hmem, hc⟩)
      · exact Or.inr hoff
      · have ht : t = now - D :=
          Option.some.inj ((mem_lookupSeen_of_nodup hnodup hmem).symm.trans hseen)
        rw [ht, Nat.sub_sub_self hD] at hc
        exact Or.inl hc
    · rintro (hlt | hoff)
      · refine Or.inr ⟨now - D, lookupSeen_mem hseen, ?_⟩
        rwa [Nat.sub_sub_self hD]
      · exact Or.inl hoff
  · intro r hr
    exact (hfold r).mpr (Or.inr hr)
  · intro r hr
    exact (hfold r).mpr (Or.inl hr)

/-- Witness for C6: worker 7 last seen at time 5, evaluated at time 10
(elapsed 5) with timeout 3. -/
theorem evaluate_offline_correct_witness :
    7 ∈ (detect_offline ⟨[(7, 5)], []⟩ 10 3).1 ↔
      3 < 5 ∨ 7 ∈ ([] : List RobotId) :=
  (evaluate_offline_correct ⟨[(7, 5)], []⟩ 7 10 5 3 (by decide) (by decide)
    (by decide)).1

/-- C7. Heartbeat authoritatively clears offline status: `heartbeat` sets
the worker's last-seen to the current time and removes it from the
offline set, and an immediately following `detect_offline` (same clock
reading, any positive timeout) does not include the worker. -/
theorem heartbeat_clears_offline (s : HealthState) (w : RobotId)
    (now timeout : Nat) (_hpos : 0 < timeout) :
    lookupSeen (heartbeat s w now).last_seen w = some now ∧
    w ∉ (heartbeat s w now).offline ∧
    w ∉ (detect_offline (heartbeat s w now) now timeout).1 := by
  refine ⟨?_, ?_, ?_⟩
  · simp [heartbeat, insertSeen, lookupSeen]
  · simp [heartbeat, removeOffline, List.mem_filter]
  · intro hmem
    rw [show (detect_offline (heartbeat s w now) now timeout).1 =
        (overdue_robots (heartbeat s w now) now timeout).foldl insertOffline
          (heartbeat s w now).offline from rfl,
      mem_foldl_insertOffline] at hmem
    rcases hmem with hmem | hmem
    · revert hmem
      simp [heartbeat, removeOffline, List.mem_filter]
    · rw [mem_overdue_iff] at hmem
      obtain ⟨t, hmem, hc⟩ := hmem
      simp only [heartbeat, insertSeen, List.mem_cons, List.mem_filter] at hmem
      rcases hmem with hmem | hmem
      · obtain ⟨-, rfl⟩ := Prod.mk.inj hmem.symm
        rw [Nat.sub_self] at hc
        exact Nat.not_lt_zero timeout hc
      · have := hmem.2
        simp at this

/-- Witness for C7: worker 3, previously offline with last-seen 0, sends a
heartbeat at time 10; evaluation at time 10 with timeout 1. -/
theorem heartbeat_clears_offline_witness :
    lookupSeen (heartbeat ⟨[(3, 0)], [3]⟩ 3 10).last_seen 3 = some 10 ∧
    3 ∉ (heartbeat ⟨[(3, 0)], [3]⟩ 3 10).offline ∧
    3 ∉ (detect_offline (heartbeat ⟨[(3, 0)], [3]⟩ 3 10) 10 1).1 :=
  heartbeat_clears_offline ⟨[(3, 0)], [3]⟩ 3 10 1 (by decide)

/-- C8. The boolean offline check refines the set-valued one: from any
state and timeout, `detect_offline_any` performs the same overdue
computation, returns `true` exactly when `detect_offline` would return a
non-empty set, and leaves the state in the same configuration. -/
theorem evaluate_any_refines_set (s : HealthState) (now timeout : Nat) :
    (detect_offline_any s now timeout).1 =
      !(detect_offline s now timeout).1.isEmpty ∧
    ((detect_offline_any s now timeout).1 = true ↔
      (detect_offline s now timeout).1 ≠ []) ∧
    (detect_offline_any s now timeout).2 = (detect_offline s now timeout).2 := by
  refine ⟨rfl, ?_, rfl⟩
  show (!((overdue_robots s now timeout).foldl insertOffline s.offline).isEmpty)
      = true ↔ (overdue_robots s now timeout).foldl insertOffline s.offline ≠ []
  cases (overdue_robots s now timeout).foldl insertOffline s.offline with
  | nil => simp [List.isEmpty]
  | cons a rest => simp [List.isEmpty]

/-- C9. Register is idempotent: when the worker is untracked, `register`
creates a last-seen entry at the current time; when already tracked, it
leaves the state unchanged, so a second registration (at any later clock
reading) yields the same state as the first. -/
theorem register_idempotent (s : HealthState) (w : RobotId)
    (now now₂ : Nat) :
    ((lookupSeen s.last_seen w).isSome = false →
      register_robot s w now = { s with last_seen := (w, now) :: s.last_seen }) ∧
    ((lookupSeen s.last_seen w).isSome = true → register_robot s w now = s) ∧
    register_robot (register_robot s w now) w now₂ = register_robot s w now := by
  refine ⟨?_, ?_, ?_⟩
  · intro h
    unfold register_robot
    rw [if_neg (by rw [h]; exact Bool.false_ne_true)]
  · intro h
    unfold register_robot
    rw [if_pos h]
  · by_cases h : (lookupSeen s.last_seen w).isSome
    · have hs : register_robot s w now = s := by
        unfold register_robot
        rw [if_pos h]
      rw [hs]
      unfold register_robot
      rw [if_pos h]
    · have hs : register_robot s w now =
          { s with last_seen := (w, now) :: s.last_seen } := by
        unfold register_robot
        rw [if_neg h]
      rw [hs]
      unfold register_robot
      rw [if_pos (by simp [lookupSeen])]

/-- Witness for C9: worker 4 registered on the empty monitor at time 10,
then re-registered at times 11. -/
theorem register_idempotent_witness :
    register_robot ⟨[], []⟩ 4 10 = ⟨[(4, 10)], []⟩ ∧
    register_robot ⟨[(4, 10)], []⟩ 4 11 = ⟨[(4, 10)], []⟩ ∧
    register_robot (register_robot ⟨[], []⟩ 4 10) 4 11 =
      register_robot ⟨[], []⟩ 4 10 :=
  ⟨(register_idempotent ⟨[], []⟩ 4 10 11).1 rfl,
   (register_idempotent ⟨[(4, 10)], []⟩ 4 11 11).2.1 rfl,
   (register_idempotent ⟨[], []⟩ 4 10 11).2.2⟩

/-- C10. Register never touches the offline set: `register_robot` leaves
the offline set exactly as it was, whether or not the worker was already
tracked, so an offline worker stays offline across re-registration. -/
theorem register_preserves_offline (s : HealthState) (w : RobotId)
    (now : Nat) : (register_robot s w now).offline = s.offline := by
  unfold register_robot
  by_cases h : (lookupSeen s.last_seen w).isSome
  · rw [if_pos h]
  · rw [if_neg h]

end HealthMonitor

end RobotFleet
